import Mathlib

/-!
Verification development for the msm8953 IPA transport layer
(`drivers/net/ipa`: `bam_trans.c`, `bam.c`, `ipa_cmd.c`, and the
associated headers).  Machine integers are modelled as `Nat` with
explicit reduction modulo `2 ^ w` at the points where the C code
truncates; fallible code returns `Option`.
-/

namespace IpaMsm8953

/-! ## Bit-field helpers

The kernel's `uNN_encode_bits(v, GENMASK(h, l))` stores `v` in bits
`l..h` of a word: it is `((v) << l) & GENMASK(h, l)`, i.e. the value is
truncated to the field width `h - l + 1` and shifted to position `l`.
`uNN_get_bits(w, GENMASK(h, l))` extracts the same field.  We model both
arithmetically on `Nat`. -/

/-- The kernel FIELD_PREP: store a value in the bit field that starts at
bit `low` and is `width` bits wide. -/
def fieldPrep (low width v : Nat) : Nat := v % 2 ^ width * 2 ^ low

/-- The kernel FIELD_GET: extract the bit field that starts at bit `low`
and is `width` bits wide. -/
def fieldGet (low width w : Nat) : Nat := w / 2 ^ low % 2 ^ width

/-! ## Command builder: register-write payloads (`ipa_cmd.c`)

`struct ipa_v2_cmd_register_write` (IPA v2 wire layout): `__le16 flags`
(bits 0-14 reserved), `__le16 offset`, `__le32 value`,
`__le32 value_mask`. -/

structure ipa_v2_cmd_register_write where
  flags : Nat
  offset : Nat
  value : Nat
  value_mask : Nat
deriving DecidableEq, Repr

/-- Embedding of `ipa_v2_cmd_register_write_add` (payload part).  The
source computes a `clear_option` local but the v2 payload layout has no
field for it (a TODO in the source); `flags` is always written 0 and the
16-bit `offset` field receives `(u16)offset`. -/
def ipa_v2_cmd_register_write_add (offset value mask : Nat) (clear_full : Bool) :
    ipa_v2_cmd_register_write :=
  let _clear_option : Nat := if clear_full then 2 else 0
  { flags := 0
    offset := offset % 2 ^ 16
    value := value % 2 ^ 32
    value_mask := mask % 2 ^ 32 }

/-- `struct ipa_cmd_register_write` (IPA v3 wire layout): `__le16 flags`,
`__le16 offset`, `__le32 value`, `__le32 value_mask`,
`__le32 clear_options`. -/
structure ipa_cmd_register_write where
  flags : Nat
  offset : Nat
  value : Nat
  value_mask : Nat
  clear_options : Nat
deriving DecidableEq, Repr

/-- Embedding of `ipa_v3_cmd_register_write_add` (payload part; the
pipeline-clear bits that the non-3.5.1 path ORs into the opcode carry no
part of the offset/value/mask and are left out of the payload record).
For versions other than 3.5.1 the high 4 bits of the 20-bit offset are
stored in bits 11-14 of `flags` (REGISTER_WRITE_FLAGS_OFFSET_HIGH,
GENMASK(14, 11)) and the low 16 bits in `offset`; for 3.5.1 the whole
16-bit offset goes in `offset` and the clear option in bits 0-1 of
`clear_options` (REGISTER_WRITE_CLEAR_OPTIONS, GENMASK(1, 0)). -/
def ipa_v3_cmd_register_write_add (v3_5_1 : Bool) (offset value mask : Nat)
    (clear_full : Bool) : ipa_cmd_register_write :=
  let clear_option : Nat := if clear_full then 2 else 0
  if v3_5_1 = false then
    let offset_high := fieldGet 16 4 offset
    let offset := offset % 2 ^ 16
    { flags := fieldPrep 11 4 offset_high
      offset := offset % 2 ^ 16
      value := value % 2 ^ 32
      value_mask := mask % 2 ^ 32
      clear_options := 0 }
  else
    { flags := 0
      offset := offset % 2 ^ 16
      value := value % 2 ^ 32
      value_mask := mask % 2 ^ 32
      clear_options := fieldPrep 0 2 clear_option % 2 ^ 32 }

/-- Decoder for the documented v2 register-write bit layout: the offset
is the 16-bit `offset` field, value and mask are the 32-bit words. -/
def registerWriteDecodeV2 (p : ipa_v2_cmd_register_write) : Nat × Nat × Nat :=
  (p.offset, p.value, p.value_mask)

/-- Decoder for the documented v3 register-write bit layout: for the
non-3.5.1 layout the offset is the 16-bit `offset` field plus the 4 high
bits taken from bits 11-14 of `flags`; for 3.5.1 it is the 16-bit
`offset` field alone. -/
def registerWriteDecodeV3 (v3_5_1 : Bool) (p : ipa_cmd_register_write) :
    Nat × Nat × Nat :=
  if v3_5_1 = false then
    (fieldGet 11 4 p.flags * 2 ^ 16 + p.offset, p.value, p.value_mask)
  else
    (p.offset, p.value, p.value_mask)

/-! ## Command builder: shared-memory DMA payloads (`ipa_cmd.c`) -/

/-- `DMA_SHARED_MEM_FLAGS_DIRECTION_FMASK` is `GENMASK(0, 0)`: the 1-bit
direction flag in bit 0 of the `flags` word. -/
def DMA_SHARED_MEM_FLAGS_DIRECTION_FMASK : Nat := 1

/-- `struct ipa_v2_cmd_hw_dma_mem_mem`: `__le16 size`,
`__le32 system_addr`, `__le16 local_addr`, `__le16 flags` (the
`reserved_1`/`padding` fields are never written by the encoder and are
omitted). -/
structure ipa_v2_cmd_hw_dma_mem_mem where
  size : Nat
  system_addr : Nat
  local_addr : Nat
  flags : Nat
deriving DecidableEq, Repr

/-- Embedding of `ipa_v2_cmd_dma_shared_mem_add` (payload part).  The
source computes the direction flag into a local `flags` variable but
then stores the constant 0 into the payload (`payload->flags = 0;`), so
the computed bit is discarded.  `local_addr` receives
`cpu_to_le32(offset)` truncated into a 16-bit field. -/
def ipa_v2_cmd_dma_shared_mem_add (mem_offset offset size addr : Nat)
    (toward_ipa : Bool) : ipa_v2_cmd_hw_dma_mem_mem :=
  let offset := offset + mem_offset
  let _flags : Nat := if toward_ipa then 0 else DMA_SHARED_MEM_FLAGS_DIRECTION_FMASK
  { size := size % 2 ^ 16
    system_addr := addr % 2 ^ 32
    local_addr := offset % 2 ^ 16
    flags := 0 }

/-- `struct ipa_cmd_hw_dma_mem_mem` (IPA v3): `__le16 size`,
`__le16 local_addr`, `__le16 flags`, `__le64 system_addr` (the
`clear_after_read` field is never written by this encoder and is
omitted). -/
structure ipa_cmd_hw_dma_mem_mem where
  size : Nat
  local_addr : Nat
  flags : Nat
  system_addr : Nat
deriving DecidableEq, Repr

/-- Embedding of `ipa_v3_cmd_dma_shared_mem_add` (payload part): the
direction flag (bit 0 of `flags`) is 0 when writing toward the IPA and
1 when reading from it. -/
def ipa_v3_cmd_dma_shared_mem_add (mem_offset offset size addr : Nat)
    (toward_ipa : Bool) : ipa_cmd_hw_dma_mem_mem :=
  let offset := offset + mem_offset
  let flags : Nat := if toward_ipa then 0 else DMA_SHARED_MEM_FLAGS_DIRECTION_FMASK
  { size := size % 2 ^ 16
    local_addr := offset % 2 ^ 16
    flags := flags % 2 ^ 16
    system_addr := addr % 2 ^ 64 }

end IpaMsm8953

namespace IpaMsm8953

/-! ## Theorems about the command encoders -/

/-- Claim C8: for every offset/value/mask triple within the documented
field widths, encoding a register-write command and then decoding the
payload through the documented bit layout reproduces the original
offset, value and mask, for both protocol-version field layouts (v2 with
its 16-bit offset; v3 non-3.5.1 with the 4 high offset bits of a 20-bit
offset in the flags word; v3.5.1 with its 16-bit offset). -/
theorem register_write_encode_decode_roundtrip
    (offset value mask : Nat) (clear_full : Bool)
    (hv : value < 2 ^ 32) (hm : mask < 2 ^ 32) :
    (offset < 2 ^ 16 →
      registerWriteDecodeV2 (ipa_v2_cmd_register_write_add offset value mask clear_full) =
        (offset, value, mask)) ∧
    (offset < 2 ^ 20 →
      registerWriteDecodeV3 false
          (ipa_v3_cmd_register_write_add false offset value mask clear_full) =
        (offset, value, mask)) ∧
    (offset < 2 ^ 16 →
      registerWriteDecodeV3 true
          (ipa_v3_cmd_register_write_add true offset value mask clear_full) =
        (offset, value, mask)) := by
  refine ⟨fun h16 => ?_, fun h20 => ?_, fun h16 => ?_⟩ <;>
    simp only [registerWriteDecodeV2, registerWriteDecodeV3,
      ipa_v2_cmd_register_write_add, ipa_v3_cmd_register_write_add,
      fieldPrep, fieldGet] <;>
    norm_num <;> omega

/-- Witness for C8 at a concrete in-range triple. -/
theorem register_write_encode_decode_roundtrip_witness :
    (0x12345 : Nat) < 2 ^ 20 ∧
    registerWriteDecodeV3 false
        (ipa_v3_cmd_register_write_add false 0x12345 7 0xff true) =
      (0x12345, 7, 0xff) :=
  ⟨by norm_num,
   (register_write_encode_decode_roundtrip 0x12345 7 0xff true
      (by norm_num) (by norm_num)).2.1 (by norm_num)⟩

/-- Claim C9 (code bug evaluation): the v2 shared-memory DMA encoder
computes the direction flag but stores 0 into the payload, so a
read-from-accelerator command (toward_ipa = false) carries direction
bit 0 on the v2 layout, while the v3 layout correctly carries 1 (and 0
for toward_ipa = true). -/
theorem dma_shared_mem_v2_direction_flag_dropped :
    (ipa_v2_cmd_dma_shared_mem_add 0 0 1 0 false).flags = 0 ∧
    (ipa_v3_cmd_dma_shared_mem_add 0 0 1 0 false).flags = 1 ∧
    (ipa_v3_cmd_dma_shared_mem_add 0 0 1 0 true).flags = 0 := by
  refine ⟨rfl, rfl, rfl⟩

end IpaMsm8953

namespace IpaMsm8953.TransLife

/-!
## Transaction lifecycle: commit, waiters and the completion callback

Shallow embedding of `bam_trans.c` centred on a single transaction and
the counters of its owning channel.  The queue structure of the channel
is modelled separately (namespace `ChanQueues`); here the transaction
carries its queue location as a single field.
-/

/-- Queue location of a transaction within its channel (the four
`ipa_trans_info` lists, plus the terminal freed state after the pool
slot is released). -/
inductive Loc where
  | allocated
  | pending
  | complete
  | polled
  | freed
deriving DecidableEq, Repr

/-- The fields of `struct ipa_trans` used by the commit/wait/callback
paths.  `sgLens` are the DMA lengths of the scatterlist entries,
`info` the optional per-entry command opcodes.  `finalizeCount` is a
ghost counter recording how many times the final pool-slot release has
been performed. -/
structure IpaTrans where
  used : Nat
  sgLens : List Nat
  info : Option (List Nat)
  len : Nat
  refcount : Nat
  completionDone : Bool
  cookie : Nat
  byte_count : Nat
  trans_count : Nat
  loc : Loc
  finalizeCount : Nat
deriving DecidableEq, Repr

/-- The channel counters touched by `__bam_trans_commit`, plus the list
of effective descriptor lengths handed to the dmaengine (so that "no
hardware submission" is expressible). -/
structure Channel where
  toward_ipa : Bool
  byte_count : Nat
  trans_count : Nat
  submitted : List Nat
deriving DecidableEq, Repr

/-- Combined state: one channel and one transaction on it. -/
structure S where
  chan : Channel
  trans : IpaTrans
deriving DecidableEq, Repr

/-- Modelled from the spec: `ipa_trans_free` (its implementation file is
not among the sources; only its declaration in `ipa_trans.h` is).  Per
the spec it "decrements refcount; only the holder that drives it to
zero performs the actual pool-slot release and list removal". -/
def ipa_trans_free (t : IpaTrans) : IpaTrans :=
  if t.refcount = 1 then
    { t with refcount := 0, loc := Loc.freed,
             finalizeCount := t.finalizeCount + 1 }
  else
    { t with refcount := t.refcount - 1 }

/-- `ipa_trans_free` lifted to the combined state. -/
def transFree (s : S) : S := { s with trans := ipa_trans_free s.trans }

/-- Modelled from the spec: `ipa_trans_move_pending` (implementation not
among the sources) relocates the transaction to the channel's pending
queue. -/
def ipa_trans_move_pending (t : IpaTrans) : IpaTrans :=
  { t with loc := Loc.pending }

/-- `refcount_inc(&trans->refcount)`. -/
def refcount_inc (s : S) : S :=
  { s with trans := { s.trans with refcount := s.trans.refcount + 1 } }

/-- Embedding of `__bam_trans_commit`: walk the `used` scatterlist
entries, accumulating the (u32) byte count and submitting one descriptor
per entry — a non-IPA_CMD_NONE opcode replaces the length in the
descriptor (immediate command); record the cookie of the last
descriptor; for a TX channel record the bytes sent and snapshot the
channel's running counters (u64) into the transaction before advancing
them; finally move the transaction to pending. -/
def __bam_trans_commit (s : S) : S :=
  let t := s.trans
  let ch := s.chan
  let lens := t.sgLens.take t.used
  let opcodes := (match t.info with
    | some ops => ops
    | none => List.replicate t.used 0).take t.used
  let byte_count := lens.sum % 2 ^ 32
  let descs := List.zipWith (fun len op => if op ≠ 0 then op else len) lens opcodes
  let ch1 := { ch with submitted := ch.submitted ++ descs }
  let t1 := { t with cookie := ch.submitted.length + t.used }
  let chTrans :=
    if ch.toward_ipa then
      ({ ch1 with trans_count := (ch.trans_count + 1) % 2 ^ 64,
                  byte_count := (ch.byte_count + byte_count) % 2 ^ 64 },
       { t1 with len := byte_count,
                 trans_count := ch.trans_count,
                 byte_count := ch.byte_count })
    else
      (ch1, t1)
  { chan := chTrans.1, trans := ipa_trans_move_pending chTrans.2 }

/-- Embedding of `bam_trans_commit`: an empty transaction is freed
without touching hardware; otherwise it is committed. -/
def bam_trans_commit (s : S) : S :=
  if s.trans.used ≠ 0 then __bam_trans_commit s else transFree s

/-- The part of `bam_trans_callback` that precedes its final
`ipa_trans_free`: the scatterlist unmap has no modelled state, the
transferred length is hard-coded to 8128 (see the FIXME in the source),
`ipa_gsi_trans_complete` is an upcall outside this subsystem, and the
completion is signalled. -/
def bam_trans_callback_enter (s : S) : S :=
  { s with trans := { s.trans with len := 8128, completionDone := true } }

/-- Embedding of `bam_trans_callback`: the completion path's processing
followed by the release of its reference. -/
def bam_trans_callback (s : S) : S := transFree (bam_trans_callback_enter s)

/-- The waiter's actions in `bam_trans_commit_wait` before it blocks on
the completion: take an extra reference, then commit.  (The blocking
wait itself changes no state; the waiter's final action after waking is
its own `ipa_trans_free`.) -/
def bam_trans_commit_wait_enter (s : S) : S :=
  __bam_trans_commit (refcount_inc s)

/-- Kernel `msecs_to_jiffies`; the code relies only on it mapping 0 to
0, so the model keeps the abstract time unit. -/
def msecs_to_jiffies (m : Nat) : Nat := m

/-- Kernel `wait_for_completion_timeout`, modelled on the contract the
code relies on: the result is 0 iff the completion is not signalled
within the wait window (for a zero timeout: iff it has not already been
signalled when the wait starts), and a positive remaining-time value
otherwise.  The `done` argument is the oracle for "signalled within the
window". -/
def wait_for_completion_timeout (done : Bool) (timeout : Nat) : Nat :=
  if done then max timeout 1 else 0

/-- Embedding of `bam_trans_commit_wait_timeout`: `remaining` starts at
1 so that an empty transaction reports success; a non-empty transaction
takes an extra reference, commits, waits with the given timeout, always
releases its own reference, and reports -ETIMEDOUT exactly when
`remaining` ended up 0. -/
def bam_trans_commit_wait_timeout (s : S) (timeout : Nat) : Int × S :=
  if s.trans.used = 0 then
    (0, transFree s)
  else
    let s1 := refcount_inc s
    let s2 := __bam_trans_commit s1
    let remaining :=
      wait_for_completion_timeout s2.trans.completionDone (msecs_to_jiffies timeout)
    let s3 := transFree s2
    (if remaining ≠ 0 then 0 else -110, s3)

end IpaMsm8953.TransLife

namespace IpaMsm8953.TransLife

/-! ## Commit-path helper lemmas -/

@[simp]
lemma transFree_chan (s : S) : (transFree s).chan = s.chan := rfl

lemma __bam_trans_commit_refcount (s : S) :
    (__bam_trans_commit s).trans.refcount = s.trans.refcount := by
  unfold __bam_trans_commit ipa_trans_move_pending
  cases h : s.chan.toward_ipa <;> simp [h]

lemma __bam_trans_commit_finalizeCount (s : S) :
    (__bam_trans_commit s).trans.finalizeCount = s.trans.finalizeCount := by
  unfold __bam_trans_commit ipa_trans_move_pending
  cases h : s.chan.toward_ipa <;> simp [h]

lemma __bam_trans_commit_completionDone (s : S) :
    (__bam_trans_commit s).trans.completionDone = s.trans.completionDone := by
  unfold __bam_trans_commit ipa_trans_move_pending
  cases h : s.chan.toward_ipa <;> simp [h]

lemma __bam_trans_commit_loc (s : S) :
    (__bam_trans_commit s).trans.loc = Loc.pending := by
  unfold __bam_trans_commit ipa_trans_move_pending
  cases h : s.chan.toward_ipa <;> simp [h]

/-- Claim C1: after `bam_trans_commit_wait` has taken the waiter's extra
reference and committed, two references are outstanding; whichever of
the completion callback and the waiter releases last performs the final
pool release and list removal, which happens exactly once and only after
both references have been released.  Order 1 is callback first (its
processing and its release), then the woken waiter's release; order 2 is
the callback's completion signal, the woken waiter's release, then the
callback's own release. -/
theorem trans_two_refs_finalize_once (s : S)
    (_hused : s.trans.used ≠ 0) (href : s.trans.refcount = 1)
    (hfin : s.trans.finalizeCount = 0) :
    (bam_trans_commit_wait_enter s).trans.refcount = 2 ∧
    (bam_trans_commit_wait_enter s).trans.finalizeCount = 0 ∧
    (bam_trans_callback (bam_trans_commit_wait_enter s)).trans.finalizeCount = 0 ∧
    (bam_trans_callback (bam_trans_commit_wait_enter s)).trans.loc = Loc.pending ∧
    (transFree (bam_trans_callback (bam_trans_commit_wait_enter s))).trans.finalizeCount = 1 ∧
    (transFree (bam_trans_callback (bam_trans_commit_wait_enter s))).trans.refcount = 0 ∧
    (transFree (bam_trans_callback (bam_trans_commit_wait_enter s))).trans.loc = Loc.freed ∧
    (transFree (bam_trans_callback_enter (bam_trans_commit_wait_enter s))).trans.finalizeCount = 0 ∧
    (transFree (transFree (bam_trans_callback_enter (bam_trans_commit_wait_enter s)))).trans.finalizeCount = 1 ∧
    (transFree (transFree (bam_trans_callback_enter (bam_trans_commit_wait_enter s)))).trans.refcount = 0 ∧
    (transFree (transFree (bam_trans_callback_enter (bam_trans_commit_wait_enter s)))).trans.loc = Loc.freed := by
  have h1 : (bam_trans_commit_wait_enter s).trans.refcount = 2 := by
    rw [bam_trans_commit_wait_enter, __bam_trans_commit_refcount]
    simp [refcount_inc, href]
  have h2 : (bam_trans_commit_wait_enter s).trans.finalizeCount = 0 := by
    rw [bam_trans_commit_wait_enter, __bam_trans_commit_finalizeCount]
    simp [refcount_inc, hfin]
  have h3 : (bam_trans_commit_wait_enter s).trans.loc = Loc.pending :=
    __bam_trans_commit_loc _
  simp only [bam_trans_callback, bam_trans_callback_enter, transFree,
    ipa_trans_free, h1, h2, h3]
  norm_num

/-- Witness state for C1: a fresh one-entry transaction on a TX channel. -/
def sC1 : S :=
  { chan := { toward_ipa := true, byte_count := 0, trans_count := 0, submitted := [] }
    trans := { used := 1, sgLens := [100], info := none, len := 0, refcount := 1,
               completionDone := false, cookie := 0, byte_count := 0,
               trans_count := 0, loc := Loc.allocated, finalizeCount := 0 } }

/-- Witness for C1 at the concrete state `sC1`. -/
theorem trans_two_refs_finalize_once_witness :
    (sC1.trans.used ≠ 0 ∧ sC1.trans.refcount = 1 ∧ sC1.trans.finalizeCount = 0) ∧
    ((bam_trans_commit_wait_enter sC1).trans.refcount = 2 ∧
     (bam_trans_commit_wait_enter sC1).trans.finalizeCount = 0 ∧
     (bam_trans_callback (bam_trans_commit_wait_enter sC1)).trans.finalizeCount = 0 ∧
     (bam_trans_callback (bam_trans_commit_wait_enter sC1)).trans.loc = Loc.pending ∧
     (transFree (bam_trans_callback (bam_trans_commit_wait_enter sC1))).trans.finalizeCount = 1 ∧
     (transFree (bam_trans_callback (bam_trans_commit_wait_enter sC1))).trans.refcount = 0 ∧
     (transFree (bam_trans_callback (bam_trans_commit_wait_enter sC1))).trans.loc = Loc.freed ∧
     (transFree (bam_trans_callback_enter (bam_trans_commit_wait_enter sC1))).trans.finalizeCount = 0 ∧
     (transFree (transFree (bam_trans_callback_enter (bam_trans_commit_wait_enter sC1)))).trans.finalizeCount = 1 ∧
     (transFree (transFree (bam_trans_callback_enter (bam_trans_commit_wait_enter sC1)))).trans.refcount = 0 ∧
     (transFree (transFree (bam_trans_callback_enter (bam_trans_commit_wait_enter sC1)))).trans.loc = Loc.freed) :=
  ⟨⟨by decide, by decide, by decide⟩,
   trans_two_refs_finalize_once sC1 (by decide) (by decide) (by decide)⟩

/-- Claim C5: `bam_trans_commit_wait_timeout` with timeout 0 on a
non-empty transaction whose hardware completion has not occurred returns
-ETIMEDOUT (-110), releases only the waiter's own reference (one
reference remains, nothing finalized), and the completion callback, if
it later fires, still performs the final release exactly once. -/
theorem commit_wait_timeout_zero (s : S)
    (hused : s.trans.used ≠ 0) (hdone : s.trans.completionDone = false)
    (href : s.trans.refcount = 1) (hfin : s.trans.finalizeCount = 0) :
    (bam_trans_commit_wait_timeout s 0).1 = -110 ∧
    (bam_trans_commit_wait_timeout s 0).2.trans.refcount = 1 ∧
    (bam_trans_commit_wait_timeout s 0).2.trans.finalizeCount = 0 ∧
    (bam_trans_callback (bam_trans_commit_wait_timeout s 0).2).trans.finalizeCount = 1 ∧
    (bam_trans_callback (bam_trans_commit_wait_timeout s 0).2).trans.refcount = 0 ∧
    (bam_trans_callback (bam_trans_commit_wait_timeout s 0).2).trans.loc = Loc.freed := by
  have hrc : (__bam_trans_commit (refcount_inc s)).trans.refcount = 2 := by
    rw [__bam_trans_commit_refcount]; simp [refcount_inc, href]
  have hfc : (__bam_trans_commit (refcount_inc s)).trans.finalizeCount = 0 := by
    rw [__bam_trans_commit_finalizeCount]; simp [refcount_inc, hfin]
  have hcd : (__bam_trans_commit (refcount_inc s)).trans.completionDone = false := by
    rw [__bam_trans_commit_completionDone]; simp [refcount_inc, hdone]
  simp only [bam_trans_commit_wait_timeout, hused, if_neg hused,
    wait_for_completion_timeout, msecs_to_jiffies, hcd,
    bam_trans_callback, bam_trans_callback_enter, transFree, ipa_trans_free,
    hrc, hfc]
  norm_num

/-- Witness state for C5: a fresh one-entry transaction, completion not
yet signalled. -/
def sC5 : S :=
  { chan := { toward_ipa := false, byte_count := 0, trans_count := 0, submitted := [] }
    trans := { used := 1, sgLens := [64], info := none, len := 0, refcount := 1,
               completionDone := false, cookie := 0, byte_count := 0,
               trans_count := 0, loc := Loc.allocated, finalizeCount := 0 } }

/-- Witness for C5 at the concrete state `sC5`. -/
theorem commit_wait_timeout_zero_witness :
    (sC5.trans.used ≠ 0 ∧ sC5.trans.completionDone = false ∧
     sC5.trans.refcount = 1 ∧ sC5.trans.finalizeCount = 0) ∧
    ((bam_trans_commit_wait_timeout sC5 0).1 = -110 ∧
     (bam_trans_commit_wait_timeout sC5 0).2.trans.refcount = 1 ∧
     (bam_trans_commit_wait_timeout sC5 0).2.trans.finalizeCount = 0 ∧
     (bam_trans_callback (bam_trans_commit_wait_timeout sC5 0).2).trans.finalizeCount = 1 ∧
     (bam_trans_callback (bam_trans_commit_wait_timeout sC5 0).2).trans.refcount = 0 ∧
     (bam_trans_callback (bam_trans_commit_wait_timeout sC5 0).2).trans.loc = Loc.freed) :=
  ⟨⟨by decide, by decide, by decide, by decide⟩,
   commit_wait_timeout_zero sC5 (by decide) (by decide) (by decide) (by decide)⟩

/-- Claim C6: committing a transaction with zero filled scatter entries
performs no hardware submission, does not move the transaction to
pending, and has exactly the effect of `ipa_trans_free` on it. -/
theorem commit_zero_used_is_free (s : S) (h : s.trans.used = 0) :
    bam_trans_commit s = transFree s ∧
    (bam_trans_commit s).chan.submitted = s.chan.submitted ∧
    (s.trans.loc ≠ Loc.pending → (bam_trans_commit s).trans.loc ≠ Loc.pending) := by
  have hc : bam_trans_commit s = transFree s := by
    simp [bam_trans_commit, h]
  refine ⟨hc, by rw [hc, transFree_chan], fun hloc => ?_⟩
  rw [hc]
  simp only [transFree, ipa_trans_free]
  split <;> simp_all

/-- Witness state for C6: an empty (zero used entries) transaction. -/
def sC6 : S :=
  { chan := { toward_ipa := true, byte_count := 0, trans_count := 0, submitted := [] }
    trans := { used := 0, sgLens := [], info := none, len := 0, refcount := 1,
               completionDone := false, cookie := 0, byte_count := 0,
               trans_count := 0, loc := Loc.allocated, finalizeCount := 0 } }

/-- Witness for C6 at the concrete state `sC6`. -/
theorem commit_zero_used_is_free_witness :
    sC6.trans.used = 0 ∧
    (bam_trans_commit sC6 = transFree sC6 ∧
     (bam_trans_commit sC6).chan.submitted = sC6.chan.submitted ∧
     (sC6.trans.loc ≠ Loc.pending → (bam_trans_commit sC6).trans.loc ≠ Loc.pending)) :=
  ⟨by decide, commit_zero_used_is_free sC6 (by decide)⟩

end IpaMsm8953.TransLife

namespace IpaMsm8953.ChanQueues

/-!
## Channel queue model

Shallow embedding of the per-channel transaction queues
(`ipa_trans_info.alloc/pending/complete/polled`) and the code that moves
transactions between them: `bam_channel_trans_alloc` and
`__bam_trans_commit` from `bam_trans.c`, and `bam_channel_update`,
`bam_channel_poll_one`, `bam_channel_poll` and `bam_channel_reset` from
the BAM channel file.  Queues hold transaction records; intrusive-list
moves (`list_move_tail`) unlink the node from whatever list it is on and
append it to the target.  Ids are ghost-unique per transaction lifetime.
-/

/-- The `struct ipa_trans` fields used by the queue paths.  `hwDone`
models `dma_async_is_tx_complete(chan, trans->cookie) = DMA_COMPLETE`
(the hardware's completion report for this transaction's cookie). -/
structure QTrans where
  id : Nat
  tre_count : Nat
  used : Nat
  sgLens : List Nat
  direction : Nat
  hwDone : Bool
  refcount : Nat
  cancelled : Bool
  completionDone : Bool
  len : Nat
  byte_count : Nat
  trans_count : Nat
deriving DecidableEq, Repr

/-- Modelled from the spec: the fixed-capacity bump pool
(`ipa_trans_pool`; its implementation file is not among the sources).
`alloc` "advances an internal cursor by count elements, wrapping or
failing only if the caller violates the reservation contract"; elements
are implicitly reusable, so the cursor wraps and allocation always
yields a slot index. -/
structure IpaTransPool where
  count : Nat
  max_alloc : Nat
  cursor : Nat
deriving DecidableEq, Repr

/-- Modelled from the spec: pool allocation returns the slot index of
`n` contiguous elements and advances the cursor, wrapping to the start
of the region when the tail is too small. -/
def ipa_trans_pool_alloc (p : IpaTransPool) (n : Nat) : Nat × IpaTransPool :=
  if p.cursor + n ≤ p.count then (p.cursor, { p with cursor := p.cursor + n })
  else (0, { p with cursor := n })

/-- `BAM_MAX_BURST_SIZE` (0x10): both the pool capacity and the
per-transaction TRE bound the BAM code uses. -/
def BAM_MAX_BURST_SIZE : Nat := 16

/-- Channel state: counters, the two pools, the four transaction
queues, and a ghost list of the ids whose pool slot has been released
(the terminal Freed stage). -/
structure Channel where
  toward_ipa : Bool
  byte_count : Nat
  trans_count : Nat
  compl_byte_count : Nat
  compl_trans_count : Nat
  pool : IpaTransPool
  sg_pool : IpaTransPool
  allocq : List QTrans
  pending : List QTrans
  complete : List QTrans
  polled : List QTrans
  retired : List Nat
deriving DecidableEq, Repr

/-- Ids of the transactions on one queue. -/
def idsOf (q : List QTrans) : List Nat := q.map (fun t => t.id)

/-- Remove the transaction with the given id from one queue
(`list_del` of its node). -/
def removeId (q : List QTrans) (id : Nat) : List QTrans :=
  q.filter (fun t => t.id ≠ id)

/-- Apply `f` to the transaction with the given id, in place. -/
def updId (q : List QTrans) (id : Nat) (f : QTrans → QTrans) : List QTrans :=
  q.map (fun t => if t.id = id then f t else t)

/-- Unlink the transaction's node from whichever queue holds it. -/
def eraseAllQ (ch : Channel) (id : Nat) : Channel :=
  { ch with allocq := removeId ch.allocq id, pending := removeId ch.pending id,
            complete := removeId ch.complete id, polled := removeId ch.polled id }

/-- Apply `f` to the transaction with the given id on whichever queue
holds it. -/
def updAllQ (ch : Channel) (id : Nat) (f : QTrans → QTrans) : Channel :=
  { ch with allocq := updId ch.allocq id f, pending := updId ch.pending id f,
            complete := updId ch.complete id f, polled := updId ch.polled id f }

/-- Find the transaction with the given id on any of the four queues. -/
def findId (ch : Channel) (id : Nat) : Option QTrans :=
  (ch.allocq ++ ch.pending ++ ch.complete ++ ch.polled).find? (fun t => t.id = id)

/-- Modelled from the spec: `ipa_trans_move_pending` relocates the
transaction (under the channel lock) to the tail of the pending queue. -/
def ipa_trans_move_pending (ch : Channel) (t : QTrans) : Channel :=
  let c := eraseAllQ ch t.id
  { c with pending := c.pending ++ [t] }

/-- Modelled from the spec: `ipa_trans_move_complete` relocates the
transaction to the tail of the complete queue. -/
def ipa_trans_move_complete (ch : Channel) (t : QTrans) : Channel :=
  let c := eraseAllQ ch t.id
  { c with complete := c.complete ++ [t] }

/-- Modelled from the spec: `ipa_trans_move_polled` relocates the
transaction to the tail of the polled queue. -/
def ipa_trans_move_polled (ch : Channel) (t : QTrans) : Channel :=
  let c := eraseAllQ ch t.id
  { c with polled := c.polled ++ [t] }

/-- Modelled from the spec: `ipa_trans_free` "decrements refcount; only
the holder that drives it to zero performs the actual pool-slot release
and list removal".  The release is recorded on the ghost `retired`
list. -/
def ipa_trans_free (ch : Channel) (id : Nat) : Channel :=
  match findId ch id with
  | none => ch
  | some t =>
    if t.refcount = 1 then
      { eraseAllQ ch id with retired := ch.retired ++ [id] }
    else
      updAllQ ch id (fun u => { u with refcount := u.refcount - 1 })

/-- Embedding of `bam_channel_trans_alloc` (queue view): take one
element from the transaction pool and `tre_count` elements from the
scatterlist pool (both always succeed — the code has no failure path),
initialize the transaction, add it to the tail of the alloc queue and
set its refcount to 1.  `id` is the ghost identity of the handed-out
slot. -/
def bam_channel_trans_alloc (ch : Channel) (id tre_count direction : Nat) :
    QTrans × Channel :=
  let pa := ipa_trans_pool_alloc ch.pool 1
  let sa := ipa_trans_pool_alloc ch.sg_pool tre_count
  let t : QTrans :=
    { id := id, tre_count := tre_count, used := 0, sgLens := [],
      direction := direction, hwDone := false, refcount := 1,
      cancelled := false, completionDone := false, len := 0,
      byte_count := 0, trans_count := 0 }
  (t, { ch with pool := pa.2, sg_pool := sa.2, allocq := ch.allocq ++ [t] })

/-- Embedding of `__bam_trans_commit` (queue view): accumulate the u32
byte count over the used scatterlist entries; for a TX channel record
the bytes sent, snapshot the channel's running u64 counters into the
transaction and advance them; move the transaction to pending.  (The
per-descriptor dmaengine submission is modelled in the `TransLife`
namespace; the hardware's completion report is the `hwDone` oracle
here.) -/
def __bam_trans_commit (ch : Channel) (t : QTrans) : Channel :=
  let byte_count := (t.sgLens.take t.used).sum % 2 ^ 32
  if ch.toward_ipa then
    let t1 := { t with len := byte_count, trans_count := ch.trans_count,
                       byte_count := ch.byte_count }
    let ch1 := { ch with trans_count := (ch.trans_count + 1) % 2 ^ 64,
                         byte_count := (ch.byte_count + byte_count) % 2 ^ 64 }
    ipa_trans_move_pending ch1 t1
  else
    ipa_trans_move_pending ch t

/-- Embedding of `bam_channel_tx_update`: u64 arithmetic on the
completed-byte/trans counters; the result is reported upward
(`ipa_transport_channel_tx_completed`, outside this subsystem). -/
def bam_channel_tx_update (ch : Channel) (t : QTrans) : Channel :=
  let byte_count := ((t.byte_count + t.len) % 2 ^ 64 + 2 ^ 64 - ch.compl_byte_count) % 2 ^ 64
  let trans_count := ((t.trans_count + 1) % 2 ^ 64 + 2 ^ 64 - ch.compl_trans_count) % 2 ^ 64
  { ch with compl_byte_count := (ch.compl_byte_count + byte_count) % 2 ^ 64,
            compl_trans_count := (ch.compl_trans_count + trans_count) % 2 ^ 64 }

/-- Embedding of `bam_channel_rx_update` (with its FIXME'd byte
accounting). -/
def bam_channel_rx_update (ch : Channel) (t : QTrans) : Channel :=
  let byte_count := (t.byte_count + t.len) % 2 ^ 64
  { ch with byte_count := (ch.byte_count + byte_count) % 2 ^ 64,
            trans_count := (ch.trans_count + 1) % 2 ^ 64 }

/-- Embedding of `bam_channel_update`: scan the pending queue for the
first transaction the hardware reports complete.  If the scan falls off
the end of the list — in particular whenever the pending queue is
empty — the loop cursor is the list-head sentinel, not a transaction,
and the following accesses are undefined behavior: modelled as `none`.
Otherwise: take a reference, run the TX/RX counter update, move the
transaction to the complete queue and drop the taken reference. -/
def bam_channel_update (ch : Channel) : Option Channel :=
  match ch.pending.find? (fun t => t.hwDone) with
  | none => none
  | some t0 =>
    let t1 := { t0 with refcount := t0.refcount + 1 }
    let ch1 := if ch.toward_ipa then bam_channel_tx_update ch t1
               else bam_channel_rx_update ch t1
    let ch2 := ipa_trans_move_complete ch1 t1
    some (ipa_trans_free ch2 t1.id)

/-- Embedding of `bam_channel_trans_complete`: oldest completed
transaction, or null. -/
def bam_channel_trans_complete (ch : Channel) : Option QTrans :=
  ch.complete.head?

/-- Embedding of `bam_channel_poll_one`: pop the head of the complete
queue; if it is empty, consult the hardware (`bam_channel_update`) and
retry; a popped transaction is moved to polled.  `none` propagates the
undefined behavior of `bam_channel_update`. -/
def bam_channel_poll_one (ch : Channel) : Option (Option QTrans × Channel) :=
  match bam_channel_trans_complete ch with
  | some t => some (some t, ipa_trans_move_polled ch t)
  | none =>
    match bam_channel_update ch with
    | none => none
    | some ch1 =>
      match bam_channel_trans_complete ch1 with
      | some t => some (some t, ipa_trans_move_polled ch1 t)
      | none => some (none, ch1)

/-- Modelled from the spec and the comment on `bam_channel_poll`: each
polled transaction is passed to `ipa_trans_complete` "to perform
remaining completion processing and retire/free the transaction"; its
effect on the modelled state is the release of a reference. -/
def ipa_trans_complete (ch : Channel) (t : QTrans) : Channel :=
  ipa_trans_free ch t.id

/-- The `while (count < budget)` loop of `bam_channel_poll`: `count` is
incremented before each `bam_channel_poll_one`; a null result breaks the
loop.  The result is the final `count` (the C return value), the number
of transactions passed to `ipa_trans_complete`, and the channel.
`fuel` is the structural-termination bound: each iteration increments
`count` by one, so the loop runs at most `budget - count` more times and
the caller passes exactly that; when fuel runs out, `count = budget`
and the returned value is the loop's own exit value. -/
def bam_channel_poll_fuel : Nat → Channel → Nat → Nat → Nat →
    Option (Nat × Nat × Channel)
  | 0, ch, _budget, count, processed => some (count, processed, ch)
  | fuel + 1, ch, budget, count, processed =>
    if count < budget then
      match bam_channel_poll_one ch with
      | none => none
      | some (none, ch1) => some (count + 1, processed, ch1)
      | some (some t, ch1) =>
        bam_channel_poll_fuel fuel (ipa_trans_complete ch1 t) budget
          (count + 1) (processed + 1)
    else
      some (count, processed, ch)

/-- Embedding of `bam_channel_poll` for a non-negative NAPI budget. -/
def bam_channel_poll (ch : Channel) (budget : Nat) : Option (Nat × Nat × Channel) :=
  bam_channel_poll_fuel budget ch budget 0 0

/-- Embedding of `bam_trans_callback` (queue view): set the hard-coded
length, signal the completion, and release the completion path's
reference. -/
def bam_trans_callback (ch : Channel) (id : Nat) : Channel :=
  let ch1 := updAllQ ch id (fun t => { t with len := 8128, completionDone := true })
  ipa_trans_free ch1 id

/-- Embedding of `bam_channel_reset`: the body is empty
("No reset for BAM"). -/
def bam_channel_reset (ch : Channel) (_doorbell : Bool) : Channel :=
  ch

end IpaMsm8953.ChanQueues

namespace IpaMsm8953.ChanQueues

/-! ## Theorems about allocation, reset, the harvester and the poll loop -/

/-- An idle channel with freshly initialized pools
(`bam_channel_trans_init` sizes both pools with BAM_MAX_BURST_SIZE). -/
def chEmpty : Channel :=
  { toward_ipa := false, byte_count := 0, trans_count := 0,
    compl_byte_count := 0, compl_trans_count := 0,
    pool := { count := BAM_MAX_BURST_SIZE, max_alloc := BAM_MAX_BURST_SIZE, cursor := 0 },
    sg_pool := { count := BAM_MAX_BURST_SIZE, max_alloc := BAM_MAX_BURST_SIZE, cursor := 0 },
    allocq := [], pending := [], complete := [], polled := [], retired := [] }

/-- Total number of TREs reserved by the transactions live on the
channel's queues — the channel's outstanding-TRE budget usage. -/
def outstandingTres (ch : Channel) : Nat :=
  ((ch.allocq ++ ch.pending ++ ch.complete ++ ch.polled).map
    (fun t => t.tre_count)).sum

/-- A committed one-TRE transaction occupying budget. -/
def tBusy (i : Nat) : QTrans :=
  { id := i, tre_count := 1, used := 1, sgLens := [1], direction := 0,
    hwDone := false, refcount := 1, cancelled := false,
    completionDone := false, len := 0, byte_count := 0, trans_count := 0 }

/-- A channel whose entire BAM_MAX_BURST_SIZE TRE budget is outstanding
(16 one-TRE transactions pending, both pool cursors at capacity). -/
def chExhausted : Channel :=
  { chEmpty with pending := (List.range 16).map tBusy,
                 pool := { count := 16, max_alloc := 16, cursor := 16 },
                 sg_pool := { count := 16, max_alloc := 16, cursor := 16 } }

/-- Claim C3 (code bug evaluation): with the channel's outstanding-TRE
budget fully exhausted, `bam_channel_trans_alloc` still hands out a
(non-null) transaction with refcount 1 on the alloc queue — the
function has no budget check and no failure path, contradicting its own
doc comment ("or a null pointer if all available transactions are in
use") and the claimed alloc-fails-iff-budget-exhausted contract. -/
theorem bam_channel_trans_alloc_no_budget_check :
    outstandingTres chExhausted = BAM_MAX_BURST_SIZE ∧
    (bam_channel_trans_alloc chExhausted 99 1 0).2.allocq =
      [(bam_channel_trans_alloc chExhausted 99 1 0).1] ∧
    (bam_channel_trans_alloc chExhausted 99 1 0).1.refcount = 1 := by
  decide

/-- A pending, not yet cancelled transaction for the reset scenario. -/
def tC4 : QTrans :=
  { id := 3, tre_count := 1, used := 1, sgLens := [32], direction := 0,
    hwDone := true, refcount := 1, cancelled := false,
    completionDone := false, len := 0, byte_count := 0, trans_count := 0 }

/-- Claim C4 counterexample: after a BAM channel reset, a transaction
that was pending is still pending, its cancelled flag still clear, and
the complete queue still empty — refuting "every previously-pending
transaction has transitioned to Complete with its cancelled flag set". -/
theorem bam_channel_reset_leaves_pending_uncancelled :
    (bam_channel_reset { chEmpty with pending := [tC4] } true).pending = [tC4] ∧
    tC4.cancelled = false ∧
    (bam_channel_reset { chEmpty with pending := [tC4] } true).complete = [] :=
  ⟨rfl, rfl, rfl⟩

/-- Claim C4 (amended): the BAM backend's `channel_reset` is a no-op
("No reset for BAM"): it moves no transaction, sets no cancelled flag,
and — the state being untouched — neither frees nor leaks anything. -/
theorem bam_channel_reset_noop (ch : Channel) (doorbell : Bool) :
    bam_channel_reset ch doorbell = ch :=
  rfl

/-- Claim C10: `bam_channel_update` on an empty pending queue is
undefined: the `list_for_each_entry` cursor ends at the list-head
sentinel, which is not a valid transaction, so the subsequent
refcount/counter/move accesses have no defined meaning (modelled as
`none`); every caller must establish a non-empty pending queue first. -/
theorem bam_channel_update_empty_pending (ch : Channel)
    (h : ch.pending = []) : bam_channel_update ch = none := by
  simp [bam_channel_update, h]

/-- Witness for C10 at the concrete idle channel. -/
theorem bam_channel_update_empty_pending_witness :
    chEmpty.pending = [] ∧ bam_channel_update chEmpty = none :=
  ⟨rfl, bam_channel_update_empty_pending chEmpty rfl⟩

/-- Bound on the poll loop: with the fuel synchronized to
`budget - count` and `processed ≤ count`, a defined run of the loop
returns a count and a processed-transaction count that are both at most
the budget. -/
lemma bam_channel_poll_fuel_bound (budget : Nat) :
    ∀ fuel ch count processed r, count + fuel ≤ budget →
      processed ≤ count →
      bam_channel_poll_fuel fuel ch budget count processed = some r →
      r.1 ≤ budget ∧ r.2.1 ≤ budget := by
  intro fuel
  induction fuel with
  | zero =>
    intro ch count processed r hf hp h
    simp only [bam_channel_poll_fuel, Option.some.injEq] at h
    subst h
    refine ⟨?_, ?_⟩ <;> dsimp only <;> omega
  | succ n ih =>
    intro ch count processed r hf hp h
    by_cases hlt : count < budget
    · simp only [bam_channel_poll_fuel, if_pos hlt] at h
      cases hpoll : bam_channel_poll_one ch with
      | none => rw [hpoll] at h; cases h
      | some pr =>
        rw [hpoll] at h
        obtain ⟨ot, ch1⟩ := pr
        cases ot with
        | none =>
          simp only [Option.some.injEq] at h
          subst h
          refine ⟨?_, ?_⟩ <;> dsimp only <;> omega
        | some t =>
          exact ih (ipa_trans_complete ch1 t) (count + 1) (processed + 1) r
            (by omega) (by omega) h
    · simp only [bam_channel_poll_fuel, if_neg hlt, Option.some.injEq] at h
      subst h
      refine ⟨?_, ?_⟩ <;> dsimp only <;> omega

/-- Claim C7: for every budget K and channel state, a defined invocation
of `bam_channel_poll` passes at most K transactions to
`ipa_trans_complete` and returns a count no greater than K; further
completions are left on the channel for a later invocation. -/
theorem bam_channel_poll_budget_bound (ch : Channel) (budget : Nat)
    (r : Nat × Nat × Channel) (h : bam_channel_poll ch budget = some r) :
    r.1 ≤ budget ∧ r.2.1 ≤ budget :=
  bam_channel_poll_fuel_bound budget budget ch 0 0 r (by omega)
    (Nat.le_refl 0) h

/-- Two hardware-completed transactions for the poll witness. -/
def tDoneA : QTrans :=
  { id := 5, tre_count := 1, used := 1, sgLens := [8], direction := 0,
    hwDone := true, refcount := 1, cancelled := false,
    completionDone := true, len := 8, byte_count := 0, trans_count := 0 }

def tDoneB : QTrans :=
  { id := 6, tre_count := 1, used := 1, sgLens := [8], direction := 0,
    hwDone := true, refcount := 1, cancelled := false,
    completionDone := true, len := 8, byte_count := 0, trans_count := 0 }

/-- Witness for C7: two completed transactions are available but the
budget is 1; the poll processes exactly one, returns 1, and leaves the
other on the complete queue. -/
theorem bam_channel_poll_budget_bound_witness :
    bam_channel_poll { chEmpty with complete := [tDoneA, tDoneB] } 1 =
      some (1, 1, { chEmpty with complete := [tDoneB], retired := [5] }) ∧
    (1 ≤ 1 ∧ 1 ≤ 1) :=
  ⟨by decide,
   bam_channel_poll_budget_bound { chEmpty with complete := [tDoneA, tDoneB] } 1
     (1, 1, { chEmpty with complete := [tDoneB], retired := [5] }) (by decide)⟩

end IpaMsm8953.ChanQueues

namespace IpaMsm8953.ChanQueues

/-!
## Queue lifecycle: stages, invariant and the step relation

`stageOf` reads a transaction's stage off the channel state:
0 = Allocated, 1 = Pending, 2 = Complete, 3 = Polled, 4 = Freed
(on the ghost retired list).  `Step` relates a channel state to its
successor under one invocation of the code paths that touch the queues,
with each operand drawn exactly the way the code draws it.
-/

/-- All ids known to the channel: the four queues plus the retired
ghost list. -/
def allIds (ch : Channel) : List Nat :=
  idsOf ch.allocq ++ idsOf ch.pending ++ idsOf ch.complete ++
    idsOf ch.polled ++ ch.retired

/-- The lifecycle stage of an id on the channel. -/
def stageOf (ch : Channel) (i : Nat) : Option Nat :=
  if i ∈ idsOf ch.allocq then some 0
  else if i ∈ idsOf ch.pending then some 1
  else if i ∈ idsOf ch.complete then some 2
  else if i ∈ idsOf ch.polled then some 3
  else if i ∈ ch.retired then some 4
  else none

/-- Forward order on observed stages (an id never seen before may enter
at any stage). -/
def stageLe : Option Nat → Option Nat → Prop
  | none, _ => True
  | some _, none => False
  | some a, some b => a ≤ b

/-- The channel invariant of the claim: no id occurs twice across the
four queues and the retired list — a transaction is never on two queues
at once, and a freed one is on none. -/
def Inv (ch : Channel) : Prop := (allIds ch).Nodup

/-- A ghost-fresh id: the pool slot handed out is no live (or previously
retired) transaction's. -/
def idFresh (ch : Channel) (i : Nat) : Prop := i ∉ allIds ch

/-- The dmaengine fires `bam_trans_callback` for a transaction that was
committed: it sits on the pending, complete or polled queue. -/
def committedOn (ch : Channel) (i : Nat) : Prop :=
  i ∈ idsOf ch.pending ∨ i ∈ idsOf ch.complete ∨ i ∈ idsOf ch.polled

/-- One step of the channel: the queue-touching code paths with their
operands drawn as the code draws them. -/
inductive Step : Channel → Channel → Prop where
  | alloc (ch : Channel) (id tre_count direction : Nat) :
      idFresh ch id →
      Step ch (bam_channel_trans_alloc ch id tre_count direction).2
  | commit (ch : Channel) (t : QTrans) :
      t ∈ ch.allocq → t.used ≠ 0 →
      Step ch (__bam_trans_commit ch t)
  | update (ch ch' : Channel) :
      bam_channel_update ch = some ch' →
      Step ch ch'
  | poll_one (ch : Channel) (r : Option QTrans) (ch' : Channel) :
      bam_channel_poll_one ch = some (r, ch') →
      Step ch ch'
  | free (ch : Channel) (id : Nat) :
      Step ch (ipa_trans_free ch id)
  | callback (ch : Channel) (id : Nat) :
      committedOn ch id →
      Step ch (bam_trans_callback ch id)

instance (ch : Channel) : Decidable (Inv ch) := by
  unfold Inv
  infer_instance

instance (ch : Channel) (i : Nat) : Decidable (idFresh ch i) := by
  unfold idFresh
  infer_instance

instance (ch : Channel) (i : Nat) : Decidable (committedOn ch i) := by
  unfold committedOn
  infer_instance

/-! ### Membership and counting lemmas for the queue operations -/

lemma mem_idsOf_removeId {q : List QTrans} {a i : Nat} :
    i ∈ idsOf (removeId q a) ↔ i ∈ idsOf q ∧ i ≠ a := by
  simp only [idsOf, removeId, List.mem_map, List.mem_filter,
    decide_eq_true_eq]
  constructor
  · rintro ⟨t, ⟨ht, hne⟩, rfl⟩
    exact ⟨⟨t, ht, rfl⟩, hne⟩
  · rintro ⟨⟨t, ht, rfl⟩, hne⟩
    exact ⟨t, ⟨ht, hne⟩, rfl⟩

lemma idsOf_append (q r : List QTrans) : idsOf (q ++ r) = idsOf q ++ idsOf r :=
  List.map_append _ q r

lemma idsOf_updId {q : List QTrans} {a : Nat} {f : QTrans → QTrans}
    (hf : ∀ u, (f u).id = u.id) : idsOf (updId q a f) = idsOf q := by
  simp only [idsOf, updId, List.map_map]
  refine List.map_congr_left (fun t _ => ?_)
  by_cases h : t.id = a <;> simp [h, hf]

lemma count_idsOf_removeId (q : List QTrans) (a i : Nat) :
    (idsOf (removeId q a)).count i =
      if i = a then 0 else (idsOf q).count i := by
  induction q with
  | nil => simp [idsOf, removeId]
  | cons hd tl ih =>
    by_cases hh : hd.id = a
    · by_cases hi : i = a <;>
        simp [idsOf, removeId, List.filter_cons, hh, hi, List.count_cons] at * <;>
        omega
    · by_cases hi : i = a <;>
        by_cases hhi : hd.id = i <;>
        simp [idsOf, removeId, List.filter_cons, hh, hi, hhi, List.count_cons] at * <;>
        omega

lemma count_idsOf_append_single (q : List QTrans) (t : QTrans) (i : Nat) :
    (idsOf (q ++ [t])).count i =
      (idsOf q).count i + if t.id = i then 1 else 0 := by
  by_cases h : t.id = i <;>
    simp [idsOf_append, List.count_append, idsOf, List.count_cons, h]

lemma count_idsOf_updId (q : List QTrans) (a i : Nat) (f : QTrans → QTrans)
    (hf : ∀ u, (f u).id = u.id) :
    (idsOf (updId q a f)).count i = (idsOf q).count i := by
  rw [idsOf_updId hf]

lemma one_le_count_of_mem {l : List Nat} {i : Nat} (h : i ∈ l) :
    1 ≤ l.count i := by
  rcases Nat.eq_zero_or_pos (l.count i) with h0 | h1
  · exact absurd h (List.count_eq_zero.mp h0)
  · omega

lemma count_allIds (ch : Channel) (i : Nat) :
    (allIds ch).count i =
      (idsOf ch.allocq).count i + (idsOf ch.pending).count i +
      (idsOf ch.complete).count i + (idsOf ch.polled).count i +
      ch.retired.count i := by
  simp [allIds, List.count_append]
  omega

end IpaMsm8953.ChanQueues

namespace IpaMsm8953.ChanQueues

/-! ### Stage lemmas for the queue operations -/

lemma mem_idsOf_single {t : QTrans} {i : Nat} : i ∈ idsOf [t] ↔ i = t.id := by
  simp [idsOf]

lemma stageOf_move_pending (ch : Channel) (t : QTrans) (i : Nat) :
    stageOf (ipa_trans_move_pending ch t) i =
      if i = t.id then some 1 else stageOf ch i := by
  by_cases hi : i = t.id <;>
    simp [stageOf, ipa_trans_move_pending, eraseAllQ, mem_idsOf_removeId,
      idsOf_append, mem_idsOf_single, hi]

lemma stageOf_move_complete (ch : Channel) (t : QTrans) (i : Nat) :
    stageOf (ipa_trans_move_complete ch t) i =
      if i = t.id then some 2 else stageOf ch i := by
  by_cases hi : i = t.id <;>
    simp [stageOf, ipa_trans_move_complete, eraseAllQ, mem_idsOf_removeId,
      idsOf_append, mem_idsOf_single, hi]

lemma stageOf_move_polled (ch : Channel) (t : QTrans) (i : Nat) :
    stageOf (ipa_trans_move_polled ch t) i =
      if i = t.id then some 3 else stageOf ch i := by
  by_cases hi : i = t.id <;>
    simp [stageOf, ipa_trans_move_polled, eraseAllQ, mem_idsOf_removeId,
      idsOf_append, mem_idsOf_single, hi]

lemma stageOf_retire (ch : Channel) (a i : Nat) :
    stageOf { eraseAllQ ch a with retired := ch.retired ++ [a] } i =
      if i = a then some 4 else stageOf ch i := by
  by_cases hi : i = a <;>
    simp [stageOf, eraseAllQ, mem_idsOf_removeId, hi]

lemma stageOf_updAllQ (ch : Channel) (a i : Nat) (f : QTrans → QTrans)
    (hf : ∀ u, (f u).id = u.id) :
    stageOf (updAllQ ch a f) i = stageOf ch i := by
  simp [stageOf, updAllQ, idsOf_updId hf]

lemma stageOf_alloc (ch : Channel) (id n d i : Nat) :
    stageOf (bam_channel_trans_alloc ch id n d).2 i =
      if i = id then some 0 else stageOf ch i := by
  by_cases hi : i = id <;>
    simp [stageOf, bam_channel_trans_alloc, idsOf_append, idsOf, hi]

lemma stageOf_tx_update (ch : Channel) (t : QTrans) (i : Nat) :
    stageOf (bam_channel_tx_update ch t) i = stageOf ch i := rfl

lemma stageOf_rx_update (ch : Channel) (t : QTrans) (i : Nat) :
    stageOf (bam_channel_rx_update ch t) i = stageOf ch i := rfl

lemma stageOf_of_mem_allocq {ch : Channel} {i : Nat}
    (h : i ∈ idsOf ch.allocq) : stageOf ch i = some 0 := by
  simp [stageOf, h]

lemma stageOf_le_one_of_mem_pending {ch : Channel} {i : Nat}
    (h : i ∈ idsOf ch.pending) :
    ∃ a, stageOf ch i = some a ∧ a ≤ 1 := by
  by_cases h0 : i ∈ idsOf ch.allocq
  · exact ⟨0, by simp [stageOf, h0], by omega⟩
  · exact ⟨1, by simp [stageOf, h0, h], by omega⟩

lemma stageOf_le_two_of_mem_complete {ch : Channel} {i : Nat}
    (h : i ∈ idsOf ch.complete) :
    ∃ a, stageOf ch i = some a ∧ a ≤ 2 := by
  by_cases h0 : i ∈ idsOf ch.allocq
  · exact ⟨0, by simp [stageOf, h0], by omega⟩
  · by_cases h1 : i ∈ idsOf ch.pending
    · exact ⟨1, by simp [stageOf, h0, h1], by omega⟩
    · exact ⟨2, by simp [stageOf, h0, h1, h], by omega⟩

lemma stageLe_refl (x : Option Nat) : stageLe x x := by
  cases x <;> simp [stageLe]

lemma stageOf_le_four {ch : Channel} {i a : Nat}
    (h : stageOf ch i = some a) : a ≤ 4 := by
  unfold stageOf at h
  split_ifs at h <;> simp_all <;> omega

lemma stageLe_stageOf_some_four (ch : Channel) (i : Nat) :
    stageLe (stageOf ch i) (some 4) := by
  cases h : stageOf ch i with
  | none => simp [stageLe]
  | some a => simpa [stageLe] using stageOf_le_four h

lemma stageOf_eq_none_of_fresh {ch : Channel} {i : Nat}
    (h : idFresh ch i) : stageOf ch i = none := by
  unfold idFresh allIds at h
  simp only [List.mem_append, not_or] at h
  simp [stageOf, h.1.1.1.1, h.1.1.1.2, h.1.1.2, h.1.2, h.2]

end IpaMsm8953.ChanQueues

namespace IpaMsm8953.ChanQueues

/-! ### Invariant preservation for the queue operations -/

/-- Number of occurrences of an id across the four live queues. -/
def liveCount (ch : Channel) (i : Nat) : Nat :=
  (idsOf ch.allocq).count i + (idsOf ch.pending).count i +
    (idsOf ch.complete).count i + (idsOf ch.polled).count i

lemma liveCount_of_mem {ch : Channel} {t : QTrans}
    (h : t ∈ ch.allocq ++ ch.pending ++ ch.complete ++ ch.polled) :
    1 ≤ liveCount ch t.id := by
  have hc : ∀ q : List QTrans, t ∈ q → 1 ≤ (idsOf q).count t.id := by
    intro q hq
    exact one_le_count_of_mem (by exact List.mem_map_of_mem _ hq)
  unfold liveCount
  simp only [List.mem_append] at h
  rcases h with ((h | h) | h) | h
  · have := hc _ h; omega
  · have := hc _ h; omega
  · have := hc _ h; omega
  · have := hc _ h; omega

lemma inv_move_pending {ch : Channel} {t : QTrans} (h : Inv ch)
    (ht : 1 ≤ liveCount ch t.id) : Inv (ipa_trans_move_pending ch t) := by
  unfold Inv at *
  rw [List.nodup_iff_count_le_one] at h ⊢
  intro i
  have h1 := h i
  rw [count_allIds] at h1
  rw [count_allIds]
  simp only [ipa_trans_move_pending, eraseAllQ]
  simp only [count_idsOf_append_single, count_idsOf_removeId]
  unfold liveCount at ht
  by_cases hi : i = t.id
  · subst hi; simp; omega
  · simp only [if_neg hi, if_neg (Ne.symm hi)]; omega

lemma inv_move_complete {ch : Channel} {t : QTrans} (h : Inv ch)
    (ht : 1 ≤ liveCount ch t.id) : Inv (ipa_trans_move_complete ch t) := by
  unfold Inv at *
  rw [List.nodup_iff_count_le_one] at h ⊢
  intro i
  have h1 := h i
  rw [count_allIds] at h1
  rw [count_allIds]
  simp only [ipa_trans_move_complete, eraseAllQ]
  simp only [count_idsOf_append_single, count_idsOf_removeId]
  unfold liveCount at ht
  by_cases hi : i = t.id
  · subst hi; simp; omega
  · simp only [if_neg hi, if_neg (Ne.symm hi)]; omega

lemma inv_move_polled {ch : Channel} {t : QTrans} (h : Inv ch)
    (ht : 1 ≤ liveCount ch t.id) : Inv (ipa_trans_move_polled ch t) := by
  unfold Inv at *
  rw [List.nodup_iff_count_le_one] at h ⊢
  intro i
  have h1 := h i
  rw [count_allIds] at h1
  rw [count_allIds]
  simp only [ipa_trans_move_polled, eraseAllQ]
  simp only [count_idsOf_append_single, count_idsOf_removeId]
  unfold liveCount at ht
  by_cases hi : i = t.id
  · subst hi; simp; omega
  · simp only [if_neg hi, if_neg (Ne.symm hi)]; omega

lemma inv_retire {ch : Channel} {a : Nat} (h : Inv ch)
    (ha : 1 ≤ liveCount ch a) :
    Inv { eraseAllQ ch a with retired := ch.retired ++ [a] } := by
  unfold Inv at *
  rw [List.nodup_iff_count_le_one] at h ⊢
  intro i
  have h1 := h i
  rw [count_allIds] at h1
  rw [count_allIds]
  simp only [eraseAllQ]
  simp only [count_idsOf_removeId, List.count_append]
  unfold liveCount at ha
  by_cases hi : i = a
  · subst hi
    simp
    omega
  · have hz : List.count i [a] = 0 := by
      simp [List.count_singleton, hi]
    simp only [if_neg hi, hz]
    omega

lemma allIds_updAllQ (ch : Channel) (a : Nat) (f : QTrans → QTrans)
    (hf : ∀ u, (f u).id = u.id) : allIds (updAllQ ch a f) = allIds ch := by
  simp [allIds, updAllQ, idsOf_updId hf]

lemma inv_updAllQ {ch : Channel} {a : Nat} {f : QTrans → QTrans}
    (hf : ∀ u, (f u).id = u.id) (h : Inv ch) : Inv (updAllQ ch a f) := by
  unfold Inv
  rw [allIds_updAllQ ch a f hf]
  exact h

lemma inv_alloc {ch : Channel} {id : Nat} (n d : Nat) (h : Inv ch)
    (hf : idFresh ch id) : Inv (bam_channel_trans_alloc ch id n d).2 := by
  unfold Inv at *
  rw [List.nodup_iff_count_le_one] at h ⊢
  intro i
  have h1 := h i
  rw [count_allIds] at h1
  rw [count_allIds]
  have hz : (allIds ch).count id = 0 := List.count_eq_zero.mpr hf
  rw [count_allIds] at hz
  simp only [bam_channel_trans_alloc]
  simp only [count_idsOf_append_single]
  by_cases hi : i = id
  · subst hi; simp; omega
  · simp only [if_neg (Ne.symm hi)]; omega

lemma inv_free {ch : Channel} (id : Nat) (h : Inv ch) :
    Inv (ipa_trans_free ch id) := by
  unfold ipa_trans_free
  cases hfind : findId ch id with
  | none => exact h
  | some t =>
    have hmem := List.mem_of_find?_eq_some hfind
    have hid : t.id = id := by
      have := List.find?_some hfind
      simpa using this
    have hlive : 1 ≤ liveCount ch id := hid ▸ liveCount_of_mem hmem
    by_cases hr : t.refcount = 1
    · dsimp only
      rw [if_pos hr]
      exact inv_retire h hlive
    · dsimp only
      rw [if_neg hr]
      exact inv_updAllQ (fun u => rfl) h

/-! ### Stage behavior of `ipa_trans_free` -/

lemma stageOf_free (ch : Channel) (id i : Nat) :
    stageOf (ipa_trans_free ch id) i = stageOf ch i ∨
      (i = id ∧ stageOf (ipa_trans_free ch id) i = some 4) := by
  unfold ipa_trans_free
  cases hfind : findId ch id with
  | none => left; rfl
  | some t =>
    by_cases hr : t.refcount = 1
    · by_cases hi : i = id
      · right
        refine ⟨hi, ?_⟩
        dsimp only
        rw [if_pos hr, stageOf_retire, if_pos hi]
      · left
        dsimp only
        rw [if_pos hr, stageOf_retire, if_neg hi]
    · left
      dsimp only
      rw [if_neg hr]
      exact stageOf_updAllQ _ _ _ _ (fun u => rfl)

lemma stageLe_free (ch : Channel) (id i : Nat) :
    stageLe (stageOf ch i) (stageOf (ipa_trans_free ch id) i) := by
  rcases stageOf_free ch id i with h | ⟨hi, h⟩
  · rw [h]; exact stageLe_refl _
  · rw [h]; exact stageLe_stageOf_some_four ch i

end IpaMsm8953.ChanQueues

namespace IpaMsm8953.ChanQueues

/-! ### Per-step preservation and monotonicity -/

lemma stageLe_trans {x y z : Option Nat} (h1 : stageLe x y) (h2 : stageLe y z) :
    stageLe x z := by
  cases x <;> cases y <;> cases z <;> first
    | (simp_all [stageLe]; omega)
    | simp_all [stageLe]

lemma mem_of_head? {l : List QTrans} {t : QTrans} (h : l.head? = some t) :
    t ∈ l := by
  cases l with
  | nil => cases h
  | cons a l =>
    simp only [List.head?_cons, Option.some.injEq] at h
    subst h
    exact List.mem_cons_self a l

lemma liveCount_of_mem_idsOf_allocq {ch : Channel} {i : Nat}
    (h : i ∈ idsOf ch.allocq) : 1 ≤ liveCount ch i := by
  have := one_le_count_of_mem h
  unfold liveCount
  omega

lemma liveCount_of_mem_idsOf_pending {ch : Channel} {i : Nat}
    (h : i ∈ idsOf ch.pending) : 1 ≤ liveCount ch i := by
  have := one_le_count_of_mem h
  unfold liveCount
  omega

lemma liveCount_of_mem_idsOf_complete {ch : Channel} {i : Nat}
    (h : i ∈ idsOf ch.complete) : 1 ≤ liveCount ch i := by
  have := one_le_count_of_mem h
  unfold liveCount
  omega

lemma inv_stage_alloc {ch : Channel} {id : Nat} (n d : Nat) (h : Inv ch)
    (hf : idFresh ch id) :
    Inv (bam_channel_trans_alloc ch id n d).2 ∧
      ∀ i, stageLe (stageOf ch i) (stageOf (bam_channel_trans_alloc ch id n d).2 i) := by
  refine ⟨inv_alloc n d h hf, fun i => ?_⟩
  rw [stageOf_alloc]
  by_cases hi : i = id
  · subst hi
    rw [if_pos rfl, stageOf_eq_none_of_fresh hf]
    simp [stageLe]
  · rw [if_neg hi]
    exact stageLe_refl _

lemma inv_stage_commit {ch : Channel} {t : QTrans} (h : Inv ch)
    (ht : t ∈ ch.allocq) :
    Inv (__bam_trans_commit ch t) ∧
      ∀ i, stageLe (stageOf ch i) (stageOf (__bam_trans_commit ch t) i) := by
  have hid : t.id ∈ idsOf ch.allocq := List.mem_map_of_mem _ ht
  have hlive : 1 ≤ liveCount ch t.id := liveCount_of_mem_idsOf_allocq hid
  unfold __bam_trans_commit
  by_cases htow : ch.toward_ipa = true
  · rw [if_pos htow]
    refine ⟨inv_move_pending h hlive, fun i => ?_⟩
    rw [stageOf_move_pending]
    by_cases hi : i = t.id
    · rw [if_pos hi, hi, stageOf_of_mem_allocq hid]
      simp [stageLe]
    · rw [if_neg hi]
      exact stageLe_refl _
  · rw [if_neg htow]
    refine ⟨inv_move_pending h hlive, fun i => ?_⟩
    rw [stageOf_move_pending]
    by_cases hi : i = t.id
    · rw [if_pos hi, hi, stageOf_of_mem_allocq hid]
      simp [stageLe]
    · rw [if_neg hi]
      exact stageLe_refl _

lemma inv_stage_update {ch ch' : Channel} (h : Inv ch)
    (hu : bam_channel_update ch = some ch') :
    Inv ch' ∧ ∀ i, stageLe (stageOf ch i) (stageOf ch' i) := by
  unfold bam_channel_update at hu
  cases hfind : ch.pending.find? (fun t => t.hwDone) with
  | none => rw [hfind] at hu; cases hu
  | some t0 =>
    rw [hfind] at hu
    dsimp only at hu
    obtain rfl := (Option.some_inj.mp hu).symm
    have hmem : t0 ∈ ch.pending := List.mem_of_find?_eq_some hfind
    have hidp : t0.id ∈ idsOf ch.pending := List.mem_map_of_mem _ hmem
    have hlive : 1 ≤ liveCount ch t0.id := liveCount_of_mem_idsOf_pending hidp
    by_cases htow : ch.toward_ipa = true
    all_goals
      first
        | rw [if_pos htow]
        | rw [if_neg htow]
    all_goals {
      refine ⟨inv_free _ (inv_move_complete h hlive), fun i => ?_⟩
      refine stageLe_trans (y := stageOf
        (ipa_trans_move_complete _ { t0 with refcount := t0.refcount + 1 }) i)
        ?_ (stageLe_free _ _ _)
      rw [stageOf_move_complete]
      by_cases hi : i = t0.id
      · rw [if_pos hi, hi]
        obtain ⟨a, ha, hle⟩ := stageOf_le_one_of_mem_pending hidp
        rw [ha]
        simp only [stageLe]
        omega
      · rw [if_neg hi]
        exact stageLe_refl _
    }

lemma inv_stage_poll_one {ch : Channel} {r : Option QTrans} {ch' : Channel}
    (h : Inv ch) (hp : bam_channel_poll_one ch = some (r, ch')) :
    Inv ch' ∧ ∀ i, stageLe (stageOf ch i) (stageOf ch' i) := by
  unfold bam_channel_poll_one bam_channel_trans_complete at hp
  cases hh : ch.complete.head? with
  | some t =>
    rw [hh] at hp
    dsimp only at hp
    obtain ⟨rfl, rfl⟩ : r = some t ∧ ch' = ipa_trans_move_polled ch t := by
      have := Option.some_inj.mp hp
      exact ⟨(congrArg Prod.fst this).symm, (congrArg Prod.snd this).symm⟩
    have hmem : t ∈ ch.complete := mem_of_head? hh
    have hidc : t.id ∈ idsOf ch.complete := List.mem_map_of_mem _ hmem
    refine ⟨inv_move_polled h (liveCount_of_mem_idsOf_complete hidc), fun i => ?_⟩
    rw [stageOf_move_polled]
    by_cases hi : i = t.id
    · rw [if_pos hi, hi]
      obtain ⟨a, ha, hle⟩ := stageOf_le_two_of_mem_complete hidc
      rw [ha]
      simp only [stageLe]
      omega
    · rw [if_neg hi]
      exact stageLe_refl _
  | none =>
    rw [hh] at hp
    dsimp only at hp
    cases hu : bam_channel_update ch with
    | none => rw [hu] at hp; cases hp
    | some ch1 =>
      rw [hu] at hp
      dsimp only at hp
      have h1 := inv_stage_update h hu
      cases hh1 : ch1.complete.head? with
      | some t =>
        rw [hh1] at hp
        dsimp only at hp
        obtain ⟨rfl, rfl⟩ : r = some t ∧ ch' = ipa_trans_move_polled ch1 t := by
          have := Option.some_inj.mp hp
          exact ⟨(congrArg Prod.fst this).symm, (congrArg Prod.snd this).symm⟩
        have hmem : t ∈ ch1.complete := mem_of_head? hh1
        have hidc : t.id ∈ idsOf ch1.complete := List.mem_map_of_mem _ hmem
        refine ⟨inv_move_polled h1.1 (liveCount_of_mem_idsOf_complete hidc),
          fun i => ?_⟩
        refine stageLe_trans (h1.2 i) ?_
        rw [stageOf_move_polled]
        by_cases hi : i = t.id
        · rw [if_pos hi, hi]
          obtain ⟨a, ha, hle⟩ := stageOf_le_two_of_mem_complete hidc
          rw [ha]
          simp only [stageLe]
          omega
        · rw [if_neg hi]
          exact stageLe_refl _
      | none =>
        rw [hh1] at hp
        dsimp only at hp
        obtain ⟨rfl, rfl⟩ : r = none ∧ ch' = ch1 := by
          have := Option.some_inj.mp hp
          exact ⟨(congrArg Prod.fst this).symm, (congrArg Prod.snd this).symm⟩
        exact h1

lemma inv_stage_callback {ch : Channel} (id : Nat) (h : Inv ch) :
    Inv (bam_trans_callback ch id) ∧
      ∀ i, stageLe (stageOf ch i) (stageOf (bam_trans_callback ch id) i) := by
  unfold bam_trans_callback
  refine ⟨inv_free _ (inv_updAllQ (fun u => rfl) h), fun i => ?_⟩
  refine stageLe_trans (y := stageOf (updAllQ ch id
    (fun t => { t with len := 8128, completionDone := true })) i) ?_
    (stageLe_free _ _ _)
  rw [stageOf_updAllQ ch id i
    (fun t => { t with len := 8128, completionDone := true }) (fun u => rfl)]
  exact stageLe_refl _

/-- Claim C2 (amended): under one step of any queue-touching code path,
the channel invariant is preserved — a transaction is never on two of
the four queues (nor on a queue once freed) — and every transaction's
stage moves only forward through
Allocated → Pending → Complete → Polled → Freed.  (As the
counterexample records, the final free may retire a transaction
directly out of its current queue, skipping intermediate stages, when
the completion callback drops the last reference before the harvester
runs; stages are never revisited or reordered.) -/
theorem queue_lifecycle_forward (ch ch' : Channel) (hInv : Inv ch)
    (hs : Step ch ch') :
    Inv ch' ∧ ∀ i, stageLe (stageOf ch i) (stageOf ch' i) := by
  cases hs with
  | alloc id n d hf => exact inv_stage_alloc n d hInv hf
  | commit t htq hused => exact inv_stage_commit hInv htq
  | update ch2 hu => exact inv_stage_update hInv hu
  | poll_one r ch2 hp => exact inv_stage_poll_one hInv hp
  | free id => exact ⟨inv_free id hInv, fun i => stageLe_free _ id i⟩
  | callback id hc => exact inv_stage_callback id hInv

/-- Witness for C2 (amended) at a concrete step: allocating a fresh
transaction on the idle channel. -/
theorem queue_lifecycle_forward_witness :
    (Inv chEmpty ∧ Step chEmpty (bam_channel_trans_alloc chEmpty 1 1 0).2) ∧
    (Inv (bam_channel_trans_alloc chEmpty 1 1 0).2 ∧
      ∀ i, stageLe (stageOf chEmpty i)
        (stageOf (bam_channel_trans_alloc chEmpty 1 1 0).2 i)) :=
  ⟨⟨by decide, Step.alloc chEmpty 1 1 0 (by decide)⟩,
   queue_lifecycle_forward chEmpty (bam_channel_trans_alloc chEmpty 1 1 0).2
     (by decide) (Step.alloc chEmpty 1 1 0 (by decide))⟩

/-- A committed, hardware-completed transaction sitting on the pending
queue with only its allocation reference. -/
def tCX : QTrans :=
  { id := 7, tre_count := 1, used := 1, sgLens := [64], direction := 0,
    hwDone := true, refcount := 1, cancelled := false,
    completionDone := false, len := 0, byte_count := 0, trans_count := 0 }

/-- Claim C2 counterexample: the completion callback on a pending
transaction holding the last reference is a legal step of the code
(the dmaengine invokes `bam_trans_callback` on completion, whether or
not the harvester has run), and it takes the transaction from Pending
(stage 1) directly to Freed (stage 4) — never passing through Complete
(stage 2) or Polled (stage 3) — refuting the claim that no transaction
skips a state. -/
theorem queue_lifecycle_skip_counterexample :
    Step { chEmpty with pending := [tCX] }
      (bam_trans_callback { chEmpty with pending := [tCX] } 7) ∧
    stageOf { chEmpty with pending := [tCX] } 7 = some 1 ∧
    stageOf (bam_trans_callback { chEmpty with pending := [tCX] } 7) 7 = some 4 :=
  ⟨Step.callback _ 7 (by decide), by decide, by decide⟩

end IpaMsm8953.ChanQueues
